import Mathlib

/-!
Verification of the menu widget `src/vs/base/browser/ui/menu/menu.ts`.

Strings are embedded as `List Char`.  The two regular expressions of the
module,

  MENU_MNEMONIC_REGEX          = /\(&([^\s&])\)|(^|[^&])&([^\s&])/
  MENU_ESCAPED_MNEMONIC_REGEX  = /(&amp;)?(&amp;)([^\s&])/g

are embedded as explicit matchers with JavaScript `exec` semantics
(leftmost position wins; at one position the alternatives are tried in
order, with backtracking inside an alternative).
-/

namespace Menu

/-- JavaScript `\s` character class (WhiteSpace and LineTerminator
productions), restricted to the code points JavaScript recognises. -/
def isJsSpace (c : Char) : Bool :=
  c.toNat = 0x20 || c.toNat = 0x9 || c.toNat = 0xa || c.toNat = 0xb ||
  c.toNat = 0xc || c.toNat = 0xd || c.toNat = 0xa0 || c.toNat = 0x1680 ||
  (0x2000 ≤ c.toNat && c.toNat ≤ 0x200a) || c.toNat = 0x2028 ||
  c.toNat = 0x2029 || c.toNat = 0x202f || c.toNat = 0x205f ||
  c.toNat = 0x3000 || c.toNat = 0xfeff

/-- A character that the class `[^\s&]` accepts: neither whitespace nor
the mnemonic marker. -/
def isMnemChar (c : Char) : Bool :=
  !isJsSpace c && c != '&'

/-- JavaScript `String.prototype.trim`: drop `\s` characters from both
ends. -/
def jsTrim (cs : List Char) : List Char :=
  ((cs.dropWhile isJsSpace).reverse.dropWhile isJsSpace).reverse

/-- `toLocaleLowerCase`, restricted to ASCII (all labels and keys in the
verified claims are ASCII). -/
def jsToLower (c : Char) : Char := c.toLower

/-- The result of a successful `MENU_MNEMONIC_REGEX.exec`: match index,
full match length, and the three capture groups.  Group 2 is either the
empty string (the `^` branch) or one character (the `[^&]` branch). -/
structure MnemonicMatch where
  index : Nat
  length : Nat
  group1 : Option Char
  group2 : Option (List Char)
  group3 : Option Char
deriving DecidableEq, Repr

/-- First alternative `\(&([^\s&])\)` at one position. -/
def altParen : List Char → Option MnemonicMatch
  | '(' :: '&' :: c :: ')' :: _ =>
      if isMnemChar c then some ⟨0, 4, some c, none, none⟩ else none
  | _ => none

/-- Second alternative `(^|[^&])&([^\s&])`, `^` branch of group 2 (only
possible at the start of the string). -/
def altCaret (atStart : Bool) : List Char → Option MnemonicMatch
  | '&' :: c :: _ =>
      if atStart && isMnemChar c then some ⟨0, 2, none, some [], some c⟩
      else none
  | _ => none

/-- Second alternative `(^|[^&])&([^\s&])`, `[^&]` branch of group 2. -/
def altPlain : List Char → Option MnemonicMatch
  | p :: '&' :: c :: _ =>
      if p != '&' && isMnemChar c then some ⟨0, 3, none, some [p], some c⟩
      else none
  | _ => none

/-- Try the alternatives of `MENU_MNEMONIC_REGEX` at one position, in
the regex's order. -/
def mnemonicMatchAt (atStart : Bool) (cs : List Char) : Option MnemonicMatch :=
  match altParen cs with
  | some m => some m
  | none =>
    match altCaret atStart cs with
    | some m => some m
    | none => altPlain cs

/-- Scan for the leftmost match of `MENU_MNEMONIC_REGEX`. -/
def execMnemonicAux : List Char → Nat → Option MnemonicMatch
  | cs, idx =>
    match mnemonicMatchAt (idx = 0) cs with
    | some m => some { m with index := idx }
    | none =>
      match cs with
      | [] => none
      | _ :: rest => execMnemonicAux rest (idx + 1)

/-- `MENU_MNEMONIC_REGEX.exec(label)` (menu.ts line 23). -/
def execMnemonic (label : List Char) : Option MnemonicMatch :=
  execMnemonicAux label 0

/-- `cleanMnemonic` (menu.ts lines 857-868): replace the first match by
`'$2$3'` when the in-text form matched (`!matches[1]`), by `''` for the
parenthesized form, and trim the result. -/
def cleanMnemonic (label : List Char) : List Char :=
  match execMnemonic label with
  | none => label
  | some m =>
    let mnemonicInText := m.group1.isNone
    let repl : List Char :=
      if mnemonicInText then
        m.group2.getD [] ++ (m.group3.map (fun c => [c])).getD []
      else []
    jsTrim (label.take m.index ++ repl ++ label.drop (m.index + m.length))

/-- Mnemonic parsing in the `BaseMenuActionViewItem` constructor
(menu.ts lines 375-384): only with `options.label` and
`options.enableMnemonics`, and only for a truthy (non-empty) label;
`(!!matches[1] ? matches[1] : matches[3]).toLocaleLowerCase()`. -/
def constructorMnemonic (optionsLabel enableMnemonics : Bool)
    (actionLabel : List Char) : Option Char :=
  if optionsLabel && enableMnemonics && !actionLabel.isEmpty then
    match execMnemonic actionLabel with
    | some m =>
      match m.group1 with
      | some c => some (jsToLower c)
      | none => m.group3.map jsToLower
    | none => none
  else none

/-- Modelled from the spec: the HTML-escape helper `strings.escape`
(`vs/base/common/strings`, not under the sources) used at menu.ts line
482 — it replaces the markup characters with their HTML entities. -/
def htmlEscape : List Char → List Char
  | [] => []
  | '&' :: rest => '&' :: 'a' :: 'm' :: 'p' :: ';' :: htmlEscape rest
  | '<' :: rest => '&' :: 'l' :: 't' :: ';' :: htmlEscape rest
  | '>' :: rest => '&' :: 'g' :: 't' :: ';' :: htmlEscape rest
  | c :: rest => c :: htmlEscape rest

/-- `label.replace(/&&/g, '&')` (menu.ts lines 476 and 502). -/
def replaceAmpAmp : List Char → List Char
  | '&' :: '&' :: rest => '&' :: replaceAmpAmp rest
  | c :: rest => c :: replaceAmpAmp rest
  | [] => []

/-- `label.replace(/&amp;&amp;/g, '&amp;')` (menu.ts line 497). -/
def replaceEscEsc : List Char → List Char
  | '&' :: 'a' :: 'm' :: 'p' :: ';' :: '&' :: 'a' :: 'm' :: 'p' :: ';' :: rest =>
      '&' :: 'a' :: 'm' :: 'p' :: ';' :: replaceEscEsc rest
  | c :: rest => c :: replaceEscEsc rest
  | [] => []

/-- Does the list start with `&amp;&amp;X` for a mnemonic character `X`
(the skipped negative `(&amp;)(&amp;)X` form of
`MENU_ESCAPED_MNEMONIC_REGEX`)?  Returns the mnemonic character. -/
def startsWithEscEsc : List Char → Option Char
  | '&' :: 'a' :: 'm' :: 'p' :: ';' :: '&' :: 'a' :: 'm' :: 'p' :: ';' :: c :: _ =>
      if isMnemChar c then some c else none
  | _ => none

/-- Does the list start with `&amp;X` for a mnemonic character `X` (the
group-1-empty form of `MENU_ESCAPED_MNEMONIC_REGEX`)? -/
def startsWithEsc : List Char → Option Char
  | '&' :: 'a' :: 'm' :: 'p' :: ';' :: c :: _ =>
      if isMnemChar c then some c else none
  | _ => none

/-- The `MENU_ESCAPED_MNEMONIC_REGEX` exec loop of `updateLabel`
(menu.ts lines 485-491): a global regex iterated from `lastIndex`,
skipping every match whose group 1 (`(&amp;)?`) participated; returns
the first remaining match as (index, full match length, group 3).  At
one position the optional group is tried greedily first, exactly as the
regex engine does. -/
def findEscapedMnemonicAux : List Char → Nat → Option (Nat × Nat × Char)
  | [], _ => none
  | c0 :: rest, idx =>
    match startsWithEscEsc (c0 :: rest) with
    | some _ =>
        -- group 1 matched: skip this 11-character match and continue
        findEscapedMnemonicAux ((c0 :: rest).drop 11) (idx + 11)
    | none =>
      match startsWithEsc (c0 :: rest) with
      | some c => some (idx, 6, c)
      | none => findEscapedMnemonicAux rest (idx + 1)
termination_by cs _ => cs.length
decreasing_by all_goals (simp [List.length_drop]; try omega)

/-- Leftmost non-skipped match of `MENU_ESCAPED_MNEMONIC_REGEX`. -/
def findEscapedMnemonic (cs : List Char) : Option (Nat × Nat × Char) :=
  findEscapedMnemonicAux cs 0

/-- What `updateLabel` leaves behind: the `innerHTML` assigned to the
label element, the character wrapped in the inserted `<u>` element (if
any), the `aria-label`, and the `aria-keyshortcuts` value set from the
mnemonic match (if any). -/
structure RenderedLabel where
  html : List Char
  underlined : Option Char
  ariaLabel : List Char
  ariaKeyshortcuts : Option Char
deriving DecidableEq, Repr

/-- The opening tag `<u aria-hidden="true">` inserted at menu.ts line
494. -/
def uOpenTag : List Char := "<u aria-hidden=\x22true\x22>".toList

/-- The closing tag `</u>`. -/
def uCloseTag : List Char := "</u>".toList

/-- `BaseMenuActionViewItem.updateLabel` (menu.ts lines 466-510) for an
item with `options.label` set, as a function of
`options.enableMnemonics` and the action label. -/
def updateLabel (enableMnemonics : Bool) (actionLabel : List Char) : RenderedLabel :=
  if actionLabel.isEmpty then
    -- `if (label)` fails for the falsy empty string; innerHTML = label.trim()
    ⟨jsTrim actionLabel, none, [], none⟩
  else
    let cleanLabel := cleanMnemonic actionLabel
    let label1 := if enableMnemonics then actionLabel else cleanLabel
    let aria := replaceAmpAmp cleanLabel
    match execMnemonic label1 with
    | some m =>
      let esc := htmlEscape label1
      let keyshortcut : Option Char :=
        match m.group1 with
        | some c => some (jsToLower c)
        | none => m.group3.map jsToLower
      match findEscapedMnemonic esc with
      | some (i, len, c) =>
          let withU := esc.take i ++ uOpenTag ++ [c] ++ uCloseTag ++ esc.drop (i + len)
          ⟨jsTrim (replaceEscEsc withU), some c, aria, keyshortcut⟩
      | none => ⟨jsTrim (replaceEscEsc esc), none, aria, keyshortcut⟩
    | none => ⟨jsTrim (replaceAmpAmp label1), none, aria, none⟩

/-- The kind of an action handed to the menu: a `Separator`, a
`SubmenuAction` (has nested entries), or a plain leaf action. -/
inductive ActionKind where
  | separator
  | submenu
  | leaf
deriving DecidableEq, Repr

/-- An action as the menu consumes it: identity, label, enablement and
kind.  (`IAction` of `vs/base/common/actions`; only the fields the menu
reads.) -/
structure ActionM where
  id : Nat
  label : List Char
  enabled : Bool
  kind : ActionKind
deriving DecidableEq, Repr

/-- A constructed view item: its kind (which concrete view-item class
`doGetActionViewItem` instantiated), the wrapped action, the mnemonic
parsed in the constructor, and whether the item has been rendered into
a container (`this.container`, set by `render`; the `Menu` constructor
pushes and renders every item). -/
structure ViewItemM where
  kind : ActionKind
  action : ActionM
  mnemonic : Option Char
  hasContainer : Bool
deriving DecidableEq, Repr

/-- `Menu.doGetActionViewItem` (menu.ts lines 293-345): a `Separator`
becomes a `MenuSeparatorActionViewItem`; a `SubmenuAction` becomes a
`SubmenuMenuActionViewItem`; anything else a `BaseMenuActionViewItem`.
Both of the latter parse a mnemonic in the `BaseMenuActionViewItem`
constructor (`options.label` defaults to true). -/
def doGetActionViewItem (enableMnemonics : Bool) (a : ActionM) : ViewItemM :=
  match a.kind with
  | .separator => ⟨.separator, a, none, true⟩
  | k => ⟨k, a, constructorMnemonic true enableMnemonics a.label, true⟩

/-- The mnemonic index `Menu.mnemonics`, as a total map from keys to
the registered item list (`Map.has` ⟺ the list is non-empty). -/
def MnemMap : Type := Char → List ViewItemM

/-- The empty mnemonic index. -/
def emptyMnemMap : MnemMap := fun _ => []

/-- `this.mnemonics.set(key, l)`. -/
def setMnem (m : MnemMap) (key : Char) (l : List ViewItemM) : MnemMap :=
  fun c => if c = key then l else m c

/-- Mnemonic registration in `doGetActionViewItem` (menu.ts lines
299-311 and 329-341): when mnemonics are enabled and the item has a
mnemonic and `isEnabled()` (the wrapped action is enabled), append the
item to the list for its mnemonic. -/
def registerMnemonic (enableMnemonics : Bool) (m : MnemMap) (it : ViewItemM) : MnemMap :=
  if enableMnemonics then
    match it.mnemonic with
    | some k => if it.action.enabled then setMnem m k (m k ++ [it]) else m
    | none => m
  else m

/-- Build the view items and the mnemonic index for an action list, as
the `Menu` constructor does via `this.push(actions, ...)` (line 203);
separators are returned by `doGetActionViewItem` before any
registration. -/
def buildMnemonics (enableMnemonics : Bool) (acts : List ActionM) : MnemMap :=
  acts.foldl
    (fun m a =>
      let it := doGetActionViewItem enableMnemonics a
      if a.kind = ActionKind.separator then m
      else registerMnemonic enableMnemonics m it)
    emptyMnemMap

/-- The view-item list of a constructed menu. -/
def buildViewItems (enableMnemonics : Bool) (acts : List ActionM) : List ViewItemM :=
  acts.map (doGetActionViewItem enableMnemonics)

/-- Outcome of one mnemonic key-down dispatch: the updated index, the
item focused via `focusItemByElement` (if any), and the item whose
`onClick` ran (if any). -/
structure DispatchResult where
  map : MnemMap
  focused : Option ViewItemM
  clicked : Option ViewItemM

/-- The mnemonic key-down listener (menu.ts lines 103-129): lower-case
the key; with exactly one registered item, focus it when it is a
rendered submenu item and invoke `onClick`; with more than one, shift
the first item off the list, focus it and push it to the back when it
is rendered, and store the list back. -/
def dispatchMnemonic (m : MnemMap) (rawKey : Char) : DispatchResult :=
  let key := jsToLower rawKey
  match m key with
  | [] => ⟨m, none, none⟩
  | [a] =>
      ⟨m, if a.kind = ActionKind.submenu ∧ a.hasContainer then some a else none, some a⟩
  | a :: b :: rest =>
      if a.hasContainer then
        ⟨setMnem m key ((b :: rest) ++ [a]), some a, none⟩
      else
        ⟨setMnem m key (b :: rest), none, none⟩

/-- The focus outcomes of `n` successive dispatches of the same key. -/
def focusSeq (m : MnemMap) (rawKey : Char) : Nat → List (Option ViewItemM)
  | 0 => []
  | n + 1 =>
    let r := dispatchMnemonic m rawKey
    r.focused :: focusSeq r.map rawKey n

/-- The observable outcome of `Menu.trigger`.  The context of a
`runAction` is the opaque `any` value found in the item's `_context`
(the menu's `options.context`; `none` models `undefined`). -/
inductive TriggerEffect where
  | noop
  | focusAndOpenSubmenu (index : Nat) (selectFirst : Bool)
  | runAction (actionId : Nat) (context : Option Nat)
deriving DecidableEq, Repr

/-- Modelled from the spec: the `_context` a rendered view item holds
at dispatch time.  The `BaseMenuActionViewItem` constructor initially
stores the action itself (line 368), but `ActionBar.push`
(`vs/base/browser/ui/actionbar/actionbar.ts`, not under the sources),
invoked by the `Menu` constructor at line 203, then calls
`item.setActionContext(this.context)` on every item it renders, and
the action bar's context is the menu's `options.context` (line 80);
the spec says activation is invoked "with the node's context".  So at
dispatch time every pushed item's `_context` is the menu's
`options.context`. -/
def itemContext (menuContext : Option Nat) (_it : ViewItemM) : Option Nat :=
  menuContext

/-- `Menu.trigger(index)` (menu.ts lines 247-259): guarded by
`index <= this.viewItems.length && index >= 0`; a
`SubmenuMenuActionViewItem` gets `super.focus(index); item.open(true)`,
a `BaseMenuActionViewItem` gets `super.run(item._action,
item._context)` with `_context` as in `itemContext`, anything else (a
separator, or the `undefined` read at `index == length`) falls through
to `return`. -/
def trigger (viewItems : List ViewItemM) (menuContext : Option Nat)
    (index : Int) : TriggerEffect :=
  if index ≤ (viewItems.length : Int) ∧ 0 ≤ index then
    match viewItems.get? index.toNat with
    | some it =>
      match it.kind with
      | .submenu => .focusAndOpenSubmenu index.toNat true
      | .leaf => .runAction it.action.id (itemContext menuContext it)
      | .separator => .noop
    | none => .noop
  else .noop

/-- Is a view item a focus target?  Modelled from the spec: focusable
"unless separator/disabled"; `focusNext`/`focusPrevious` skip
separators and disabled items. -/
def isFocusable (it : ViewItemM) : Bool :=
  it.action.enabled && !(it.kind = ActionKind.separator)

/-- Scan forward (wrapping) for the first focusable item, with enough
fuel to try every position once. -/
def nextFocusableFrom (items : List ViewItemM) : Nat → Nat → Option Nat
  | 0, _ => none
  | fuel + 1, pos =>
    match items.get? pos with
    | none => none
    | some it =>
      if isFocusable it then some pos
      else nextFocusableFrom items fuel ((pos + 1) % items.length)

/-- Scan backward (wrapping) for the first focusable item. -/
def prevFocusableFrom (items : List ViewItemM) : Nat → Nat → Option Nat
  | 0, _ => none
  | fuel + 1, pos =>
    match items.get? pos with
    | none => none
    | some it =>
      if isFocusable it then some pos
      else
        prevFocusableFrom items fuel
          (if pos = 0 then items.length - 1 else pos - 1)

/-- Modelled from the spec: `ActionBar.focusNext`
(`vs/base/browser/ui/actionbar/actionbar.ts`, not under the sources):
wrap-around traversal to the next focusable item strictly after the
focused index, skipping separators and disabled items; with no focused
item it enters at the start boundary. -/
def focusNext (items : List ViewItemM) (focused : Option Nat) : Option Nat :=
  if items.length = 0 then none
  else
    let start := focused.getD (items.length - 1)
    nextFocusableFrom items items.length ((start + 1) % items.length)

/-- Modelled from the spec: `ActionBar.focusPrevious` (same module):
wrap-around traversal to the previous focusable item strictly before
the focused index; with no focused item it enters at the end
boundary. -/
def focusPrevious (items : List ViewItemM) (focused : Option Nat) : Option Nat :=
  if items.length = 0 then none
  else
    let start := focused.getD 0
    prevFocusableFrom items items.length
      (if start = 0 then items.length - 1 else start - 1)

/-- The Linux Home/PageUp key-down handler (menu.ts lines 135-138):
`this.focusedItem = this.viewItems.length - 1; this.focusNext()`. -/
def linuxHomeKey (items : List ViewItemM) : Option Nat :=
  focusNext items (some (items.length - 1))

/-- The Linux End/PageDown key-down handler (menu.ts lines 139-142):
`this.focusedItem = 0; this.focusPrevious()`. -/
def linuxEndKey (items : List ViewItemM) : Option Nat :=
  focusPrevious items (some 0)

/-- Observable actions of the submenu machinery at one menu level, in
the order the code performs them. -/
inductive TraceEv where
  | disposedMenu (id : Nat)
  | constructedMenu (id : Nat)
  | focusedParent
  | focusedSubmenu (id : Nat) (selectFirst : Bool)
deriving DecidableEq, Repr

/-- One menu level: the shared `ISubMenuData` slot
(`parentData.submenu`), the set of constructed and not yet disposed
child menus, a fresh-id counter for new `Menu` objects, and the
per-item (`SubmenuMenuActionViewItem`) fields `mysubmenu`,
`submenuContainer`, `mouseOver` and the armed show-delay timer.  The
`trace` records disposals, constructions and focus transfers in
order. -/
structure LevelState where
  slot : Option Nat
  live : List Nat
  nextId : Nat
  mysub : Nat → Option Nat
  hasSubmenuContainer : Nat → Bool
  mouseOver : Nat → Bool
  showPending : Nat → Bool
  trace : List TraceEv

/-- The JavaScript comparison `this.parentData.submenu ===
this.mysubmenu`: the slot holds a `Menu | undefined` and `mysubmenu` a
`Menu | null`, so the comparison is true only when both sides are the
same constructed menu (ids are allocated freshly, so id equality is
object identity); `undefined === null` is false. -/
def slotIsMine (slot mysub : Option Nat) : Bool :=
  match slot, mysub with
  | some a, some b => a == b
  | _, _ => false

/-- `SubmenuMenuActionViewItem.cleanupExistingSubmenu` (menu.ts lines
725-735), run by item `i`: when the slot is occupied and (`force` or
the open submenu is not this item's own), dispose the open submenu,
clear the slot, and clear this item's `submenuContainer`. -/
def cleanupExistingSubmenu (s : LevelState) (i : Nat) (force : Bool) : LevelState :=
  match s.slot with
  | some m =>
    if force || !(slotIsMine (some m) (s.mysub i)) then
      { s with
        slot := none
        live := s.live.erase m
        hasSubmenuContainer := fun j => if j = i then false else s.hasSubmenuContainer j
        trace := s.trace ++ [.disposedMenu m] }
    else s
  | none => s

/-- `SubmenuMenuActionViewItem.createSubmenu` (menu.ts lines 737-806),
run by item `i` (the item is rendered, so `this.element` exists): with
an empty slot, append a submenu container, construct a fresh `Menu`
into the slot, focus it, and record it as `mysubmenu`; with an
occupied slot just focus the open submenu without selecting. -/
def createSubmenu (s : LevelState) (i : Nat) (selectFirstItem : Bool) : LevelState :=
  match s.slot with
  | none =>
    { s with
      slot := some s.nextId
      live := s.live ++ [s.nextId]
      nextId := s.nextId + 1
      mysub := fun j => if j = i then some s.nextId else s.mysub j
      hasSubmenuContainer := fun j => if j = i then true else s.hasSubmenuContainer j
      trace := s.trace ++ [.constructedMenu s.nextId, .focusedSubmenu s.nextId selectFirstItem] }
  | some m => { s with trace := s.trace ++ [.focusedSubmenu m false] }

/-- The events that drive one submenu item.  Timer firings carry the
environmental condition the callback reads (`document.activeElement`
containment for the hide timer). -/
inductive SubEvent where
  | openSub (selectFirst : Bool)
  | click
  | mouseEnter
  | mouseLeave
  | showFire
  | hideFire (focusInside : Bool)
deriving DecidableEq, Repr

/-- One event of item `i`, each handler transcribed from menu.ts:
`open` (lines 712-715) and `onClick` (lines 717-723) clean up then
create; `MOUSE_OVER` (lines 688-694) arms the 250ms show timer on a
fresh hover; `MOUSE_LEAVE` (lines 696-698) clears `mouseOver`; the
show-timer callback (lines 639-644) opens only while `mouseOver`; the
hide-timer callback (lines 646-652) closes only when focus is outside
the item's subtree and the open submenu is this item's own, focusing
the parent first. -/
def step (s : LevelState) (i : Nat) : SubEvent → LevelState
  | .openSub b => createSubmenu (cleanupExistingSubmenu s i false) i b
  | .click => createSubmenu (cleanupExistingSubmenu s i false) i true
  | .mouseEnter =>
    if s.mouseOver i then s
    else
      { s with
        mouseOver := fun j => if j = i then true else s.mouseOver j
        showPending := fun j => if j = i then true else s.showPending j }
  | .mouseLeave => { s with mouseOver := fun j => if j = i then false else s.mouseOver j }
  | .showFire =>
    if s.showPending i then
      let s1 := { s with showPending := fun j => if j = i then false else s.showPending j }
      if s.mouseOver i then createSubmenu (cleanupExistingSubmenu s1 i false) i false
      else s1
    else s
  | .hideFire focusInside =>
    if !focusInside && slotIsMine s.slot (s.mysub i) then
      cleanupExistingSubmenu { s with trace := s.trace ++ [.focusedParent] } i true
    else s

/-- Run a sequence of (item, event) pairs. -/
def runEvents (s : LevelState) : List (Nat × SubEvent) → LevelState
  | [] => s
  | (i, e) :: rest => runEvents (step s i e) rest

/-- The single-open-submenu invariant of a level: the constructed,
undisposed child menus are exactly the content of the shared slot. -/
def SlotInv (s : LevelState) : Prop :=
  s.live = s.slot.toList

/-- A fresh menu level: empty slot, nothing constructed. -/
def initLevel : LevelState :=
  ⟨none, [], 0, fun _ => none, fun _ => false, fun _ => false, fun _ => false, []⟩

/-- A level with item 0's own submenu (id 0) open: the state reached
from `initLevel` by `step initLevel 0 (.openSub true)`, with the trace
reset. -/
def levelWithOwnOpen : LevelState :=
  ⟨some 0, [0], 1, fun j => if j = 0 then some 0 else none,
   fun j => decide (j = 0), fun _ => false, fun _ => false, []⟩

/-- One one-shot timer of `vs/base/common/async`'s `RunOnceScheduler`.
Modelled from the spec: a cancellable one-shot timer owned per
component; `schedule` arms it, `dispose` cancels it and prevents any
later firing. -/
structure TimerState where
  scheduled : Bool
  wasDisposed : Bool
deriving DecidableEq, Repr

/-- `RunOnceScheduler.dispose`: cancel and mark dead. -/
def disposeTimer (_t : TimerState) : TimerState :=
  ⟨false, true⟩

/-- Can this timer's callback still fire? -/
def canFire (t : TimerState) : Bool :=
  t.scheduled && !t.wasDisposed

/-- An armed (pending) timer. -/
def armedTimer : TimerState := ⟨true, false⟩

/-- The three one-shot timers a `SubmenuMenuActionViewItem` owns: the
~100ms `runOnceToEnableMouseUp` (menu.ts lines 387-402, passed to
`this._register` at line 402), the ~250ms `showScheduler` (line 639)
and the ~750ms `hideScheduler` (line 646), both plain fields. -/
structure SubItemTimers where
  runOnceToEnableMouseUp : TimerState
  showScheduler : TimerState
  hideScheduler : TimerState
deriving DecidableEq, Repr

/-- `SubmenuMenuActionViewItem.dispose` (menu.ts lines 833-846) as it
acts on the item's timers: `super.dispose()` disposes everything that
was `_register`-ed (which includes `runOnceToEnableMouseUp`, line 402,
but neither scheduler), and line 836 disposes `hideScheduler`
explicitly; `showScheduler` is left untouched. -/
def disposeSubmenuItem (t : SubItemTimers) : SubItemTimers :=
  { runOnceToEnableMouseUp := disposeTimer t.runOnceToEnableMouseUp
    showScheduler := t.showScheduler
    hideScheduler := disposeTimer t.hideScheduler }

/-- A leaf action used to exercise `trigger` on a concrete menu. -/
def c6DemoAction : ActionM := ⟨5, "Copy".toList, true, ActionKind.leaf⟩

/-- Three enabled leaf actions sharing the mnemonic `a`. -/
def c3Acts : List ActionM :=
  [⟨1, "&Ant".toList, true, ActionKind.leaf⟩,
   ⟨2, "&Art".toList, true, ActionKind.leaf⟩,
   ⟨3, "&Axe".toList, true, ActionKind.leaf⟩]

/-- A concrete item list with separators and a disabled item, used to
exercise the Linux Home/End handlers. -/
def c7Items : List ViewItemM :=
  buildViewItems true
    [⟨0, [], false, ActionKind.separator⟩,
     ⟨1, "&Undo".toList, false, ActionKind.leaf⟩,
     ⟨2, "&Redo".toList, true, ActionKind.leaf⟩,
     ⟨3, [], false, ActionKind.separator⟩,
     ⟨4, "&More".toList, true, ActionKind.submenu⟩,
     ⟨5, [], false, ActionKind.separator⟩]

/-- C4: mnemonic extraction follows `MENU_MNEMONIC_REGEX`, lower-cased:
the item constructed for the label "E&xit" gets mnemonic "x", and the
one for "(&F)ile" gets mnemonic "f". -/
theorem c4_mnemonic_extraction :
    constructorMnemonic true true "E&xit".toList = some 'x' ∧
    constructorMnemonic true true "(&F)ile".toList = some 'f' ∧
    (doGetActionViewItem true ⟨1, "E&xit".toList, true, ActionKind.leaf⟩).mnemonic = some 'x' ∧
    (doGetActionViewItem true ⟨2, "(&F)ile".toList, true, ActionKind.leaf⟩).mnemonic = some 'f' := by
  decide

/-- C5 counterexample: for the label "Save &&As" with mnemonics
enabled, the rendered label has no underlined character and the
constructed item has no mnemonic at all — the doubled marker never
matches `MENU_MNEMONIC_REGEX`, so the claimed underlined "A" with
mnemonic key "a" is false on the code. -/
theorem c5_counterexample :
    ¬((updateLabel true "Save &&As".toList).underlined = some 'A' ∧
      (doGetActionViewItem true ⟨0, "Save &&As".toList, true, ActionKind.leaf⟩).mnemonic
        = some 'a') := by
  decide

/-- C5 (amended): for the label "Save &&As" the rendered label is the
literal "Save &As" both with mnemonics disabled and enabled; in
neither mode is any character underlined, and the item has no mnemonic
key — the doubled "&&" is an escaped literal marker, not a mnemonic. -/
theorem c5_escaped_marker_literal :
    (updateLabel false "Save &&As".toList).html = "Save &As".toList ∧
    (updateLabel false "Save &&As".toList).underlined = none ∧
    (updateLabel true "Save &&As".toList).html = "Save &As".toList ∧
    (updateLabel true "Save &&As".toList).underlined = none ∧
    (doGetActionViewItem true ⟨0, "Save &&As".toList, true, ActionKind.leaf⟩).mnemonic
      = none := by
  decide

/-- C10: `cleanMnemonic` removes only the first mnemonic occurrence;
the in-text form drops just the marker (`"E&xit"` ↦ `"Exit"`,
`"&File &Edit"` ↦ `"File &Edit"`), the parenthesized form drops the
whole group and trims (`"(&F)ile"` ↦ `"ile"`), and a label without a
match is returned unchanged. -/
theorem c10_cleanMnemonic (label : List Char) (h : execMnemonic label = none) :
    cleanMnemonic "E&xit".toList = "Exit".toList ∧
    cleanMnemonic "(&F)ile".toList = "ile".toList ∧
    cleanMnemonic "&File &Edit".toList = "File &Edit".toList ∧
    cleanMnemonic label = label := by
  refine ⟨by decide, by decide, by decide, ?_⟩
  simp [cleanMnemonic, h]

/-- Witness for C10 at the label "Hello", which has no mnemonic. -/
theorem c10_cleanMnemonic_witness :
    execMnemonic "Hello".toList = none ∧
    (cleanMnemonic "E&xit".toList = "Exit".toList ∧
     cleanMnemonic "(&F)ile".toList = "ile".toList ∧
     cleanMnemonic "&File &Edit".toList = "File &Edit".toList ∧
     cleanMnemonic "Hello".toList = "Hello".toList) :=
  ⟨by decide, c10_cleanMnemonic "Hello".toList (by decide)⟩

/-- C2 fails on the code: after `SubmenuMenuActionViewItem.dispose`,
a pending `showScheduler` (the ~250ms show-delay timer) can still
fire — it is neither `_register`-ed nor disposed — while the
hide-delay and mouse-up-arming timers are indeed cancelled. -/
theorem c2_show_timer_survives_dispose :
    canFire (disposeSubmenuItem ⟨armedTimer, armedTimer, armedTimer⟩).showScheduler = true ∧
    canFire (disposeSubmenuItem ⟨armedTimer, armedTimer, armedTimer⟩).hideScheduler = false ∧
    canFire (disposeSubmenuItem ⟨armedTimer, armedTimer, armedTimer⟩).runOnceToEnableMouseUp
      = false := by
  decide

theorem cleanup_slotInv (s : LevelState) (i : Nat) (f : Bool) (h : SlotInv s) :
    SlotInv (cleanupExistingSubmenu s i f) := by
  unfold SlotInv at *
  unfold cleanupExistingSubmenu
  cases hs : s.slot with
  | none => exact h
  | some m =>
    rw [hs] at h
    by_cases hg : (f || !slotIsMine (some m) (s.mysub i)) = true
    · simp [hg, h]
    · simp only [Bool.not_eq_true] at hg
      simp [hg]
      rw [hs]
      exact h

theorem create_slotInv (s : LevelState) (i : Nat) (b : Bool) (h : SlotInv s) :
    SlotInv (createSubmenu s i b) := by
  unfold SlotInv at *
  unfold createSubmenu
  cases hs : s.slot with
  | none =>
    rw [hs] at h
    simp [h]
  | some m =>
    rw [hs] at h
    exact h

theorem step_slotInv (s : LevelState) (i : Nat) (e : SubEvent) (h : SlotInv s) :
    SlotInv (step s i e) := by
  cases e with
  | openSub b => exact create_slotInv _ _ _ (cleanup_slotInv _ _ _ h)
  | click => exact create_slotInv _ _ _ (cleanup_slotInv _ _ _ h)
  | mouseEnter =>
    unfold step
    by_cases hm : s.mouseOver i = true <;> simp [hm] <;> exact h
  | mouseLeave => exact h
  | showFire =>
    unfold step
    by_cases hp : s.showPending i = true
    · by_cases hm : s.mouseOver i = true
      · simp only [hp, hm, if_true]
        exact create_slotInv _ _ _ (cleanup_slotInv _ _ _ h)
      · simp only [hp, hm, if_true, if_false]
        exact h
    · simp only [hp, if_false]
      exact h
  | hideFire fin =>
    unfold step
    by_cases hg : (!fin && slotIsMine s.slot (s.mysub i)) = true
    · simp only [hg, if_true]
      exact cleanup_slotInv _ _ _ h
    · simp only [hg, if_false]
      exact h

theorem runEvents_slotInv (evs : List (Nat × SubEvent)) :
    ∀ s : LevelState, SlotInv s → SlotInv (runEvents s evs) := by
  induction evs with
  | nil => intro s h; exact h
  | cons p rest ih =>
    intro s h
    obtain ⟨i, e⟩ := p
    exact ih _ (step_slotInv s i e h)

/-- C1: at every menu level, at most one child submenu is ever open in
the shared slot: the invariant "the constructed, undisposed submenus
are exactly the slot's content" is preserved by every sequence of
open, click, hover and timer events, so the number of open submenus
never exceeds one; and an `open` on an item while a sibling's submenu
occupies the slot disposes that sibling's submenu and clears the slot
synchronously before the new `Menu` is constructed and stored. -/
theorem c1_single_open_submenu (s : LevelState) (evs : List (Nat × SubEvent))
    (hinv : SlotInv s) :
    SlotInv (runEvents s evs) ∧ (runEvents s evs).live.length ≤ 1 ∧
    ∀ i b m, s.slot = some m → s.mysub i ≠ some m →
      (step s i (SubEvent.openSub b)).trace =
        s.trace ++ [TraceEv.disposedMenu m, TraceEv.constructedMenu s.nextId,
                    TraceEv.focusedSubmenu s.nextId b] := by
  have hrun := runEvents_slotInv evs s hinv
  refine ⟨hrun, ?_, ?_⟩
  · rw [SlotInv] at hrun
    rw [hrun]
    cases (runEvents s evs).slot <;> simp
  · intro i b m hm hmy
    have hnotmine : slotIsMine (some m) (s.mysub i) = false := by
      cases hmys : s.mysub i with
      | none => rfl
      | some b' =>
        simp only [slotIsMine, beq_eq_false_iff_ne, ne_eq]
        intro hc
        exact hmy (by rw [hmys, hc])
    show (createSubmenu (cleanupExistingSubmenu s i false) i b).trace = _
    simp only [cleanupExistingSubmenu, hm, hnotmine, Bool.not_false, Bool.false_or,
      Bool.or_false, if_true]
    simp [createSubmenu, List.append_assoc]

theorem showFire_no_hover (s : LevelState) (i : Nat) (h : s.mouseOver i = false) :
    (step s i SubEvent.showFire).live = s.live ∧
    (step s i SubEvent.showFire).slot = s.slot ∧
    (step s i SubEvent.showFire).nextId = s.nextId ∧
    (step s i SubEvent.showFire).trace = s.trace := by
  unfold step
  by_cases hp : s.showPending i = true
  · simp [hp, h]
  · simp [hp]

/-- C8: the show-delay timer opens the submenu only while the pointer
is still over the item: firing with `mouseOver` false constructs
nothing and changes no submenu state; consequently a hover that enters
and leaves the item before the timer fires never opens the submenu. -/
theorem c8_show_timer_requires_hover (s : LevelState) (i : Nat) :
    (s.mouseOver i = false →
      (step s i SubEvent.showFire).live = s.live ∧
      (step s i SubEvent.showFire).slot = s.slot ∧
      (step s i SubEvent.showFire).nextId = s.nextId ∧
      (step s i SubEvent.showFire).trace = s.trace) ∧
    ((runEvents s [(i, SubEvent.mouseEnter), (i, SubEvent.mouseLeave),
        (i, SubEvent.showFire)]).live = s.live ∧
     (runEvents s [(i, SubEvent.mouseEnter), (i, SubEvent.mouseLeave),
        (i, SubEvent.showFire)]).slot = s.slot ∧
     (runEvents s [(i, SubEvent.mouseEnter), (i, SubEvent.mouseLeave),
        (i, SubEvent.showFire)]).nextId = s.nextId ∧
     (runEvents s [(i, SubEvent.mouseEnter), (i, SubEvent.mouseLeave),
        (i, SubEvent.showFire)]).trace = s.trace) := by
  constructor
  · exact fun h => showFire_no_hover s i h
  · have hrun : runEvents s [(i, SubEvent.mouseEnter), (i, SubEvent.mouseLeave),
        (i, SubEvent.showFire)] =
        step (step (step s i SubEvent.mouseEnter) i SubEvent.mouseLeave) i
          SubEvent.showFire := rfl
    rw [hrun]
    set s1 := step s i SubEvent.mouseEnter with hs1
    set s2 := step s1 i SubEvent.mouseLeave with hs2
    have h2over : s2.mouseOver i = false := by
      rw [hs2]
      unfold step
      simp
    have h2fields : s2.live = s.live ∧ s2.slot = s.slot ∧ s2.nextId = s.nextId ∧
        s2.trace = s.trace := by
      rw [hs2, hs1]
      unfold step
      by_cases hm : s.mouseOver i = true <;> simp [hm]
    obtain ⟨e1, e2, e3, e4⟩ := h2fields
    obtain ⟨f1, f2, f3, f4⟩ := showFire_no_hover s2 i h2over
    exact ⟨by rw [f1, e1], by rw [f2, e2], by rw [f3, e3], by rw [f4, e4]⟩

/-- C9: the hide-delay timer closes the submenu only when focus is
outside the item's subtree and the slot's open submenu is still this
item's own — otherwise it changes nothing; when it does close, the
parent menu is focused before the child is disposed and the slot is
cleared. -/
theorem c9_hide_timer_guard (s : LevelState) (i : Nat) (fin : Bool) :
    ((fin = true ∨ slotIsMine s.slot (s.mysub i) = false) →
      step s i (SubEvent.hideFire fin) = s) ∧
    (∀ m, fin = false → s.slot = some m → s.mysub i = some m →
      (step s i (SubEvent.hideFire fin)).slot = none ∧
      (step s i (SubEvent.hideFire fin)).live = s.live.erase m ∧
      (step s i (SubEvent.hideFire fin)).trace =
        s.trace ++ [TraceEv.focusedParent, TraceEv.disposedMenu m]) := by
  constructor
  · intro hg
    unfold step
    have hfalse : (!fin && slotIsMine s.slot (s.mysub i)) = false := by
      rcases hg with h | h <;> simp [h]
    simp [hfalse]
  · intro m hf hs hmy
    unfold step
    have hmine : slotIsMine s.slot (s.mysub i) = true := by
      rw [hs, hmy]
      simp [slotIsMine]
    simp only [hf, hmine, Bool.not_false, Bool.true_and, if_true]
    simp [cleanupExistingSubmenu, hs]

/-- Witness for C1: from a fresh level, an interleaving where item 0
opens, item 1 clicks, and item 0's show timer fires. -/
theorem c1_single_open_submenu_witness :
    SlotInv initLevel ∧
    (SlotInv (runEvents initLevel
        [(0, SubEvent.openSub true), (1, SubEvent.click), (0, SubEvent.showFire)]) ∧
     (runEvents initLevel
        [(0, SubEvent.openSub true), (1, SubEvent.click), (0, SubEvent.showFire)]).live.length ≤ 1 ∧
     ∀ i b m, initLevel.slot = some m → initLevel.mysub i ≠ some m →
       (step initLevel i (SubEvent.openSub b)).trace =
         initLevel.trace ++ [TraceEv.disposedMenu m, TraceEv.constructedMenu initLevel.nextId,
                             TraceEv.focusedSubmenu initLevel.nextId b]) :=
  ⟨rfl, c1_single_open_submenu initLevel
      [(0, SubEvent.openSub true), (1, SubEvent.click), (0, SubEvent.showFire)] rfl⟩

/-- Witness for C8 at a fresh level and item 0. -/
theorem c8_show_timer_requires_hover_witness :
    initLevel.mouseOver 0 = false ∧
    ((step initLevel 0 SubEvent.showFire).live = initLevel.live ∧
     (step initLevel 0 SubEvent.showFire).slot = initLevel.slot ∧
     (step initLevel 0 SubEvent.showFire).nextId = initLevel.nextId ∧
     (step initLevel 0 SubEvent.showFire).trace = initLevel.trace) :=
  ⟨rfl, (c8_show_timer_requires_hover initLevel 0).1 rfl⟩

/-- Witness for C9: item 0's own submenu (id 0) is open and its hide
timer fires with focus outside the subtree. -/
theorem c9_hide_timer_guard_witness :
    (false = false ∧ levelWithOwnOpen.slot = some 0 ∧ levelWithOwnOpen.mysub 0 = some 0) ∧
    ((step levelWithOwnOpen 0 (SubEvent.hideFire false)).slot = none ∧
     (step levelWithOwnOpen 0 (SubEvent.hideFire false)).live = levelWithOwnOpen.live.erase 0 ∧
     (step levelWithOwnOpen 0 (SubEvent.hideFire false)).trace =
       levelWithOwnOpen.trace ++ [TraceEv.focusedParent, TraceEv.disposedMenu 0]) :=
  ⟨⟨rfl, rfl, rfl⟩, (c9_hide_timer_guard levelWithOwnOpen 0 false).2 0 rfl rfl rfl⟩

/-- C6: `Menu.trigger` is a no-op for every index outside
`[0, itemCount)` (negative or at/beyond the count); for an in-range
submenu item it focuses that index and opens the submenu with
first-item selection; for an in-range regular item it runs the action
with the menu's context. -/
theorem c6_trigger (items : List ViewItemM) (mc : Option Nat) (index : Int) :
    ((index < 0 ∨ (items.length : Int) ≤ index) →
      trigger items mc index = TriggerEffect.noop) ∧
    (∀ it, 0 ≤ index → index < (items.length : Int) →
      items.get? index.toNat = some it →
      (it.kind = ActionKind.submenu →
        trigger items mc index = TriggerEffect.focusAndOpenSubmenu index.toNat true) ∧
      (it.kind = ActionKind.leaf →
        trigger items mc index = TriggerEffect.runAction it.action.id mc)) := by
  constructor
  · intro h
    unfold trigger
    by_cases hc : index ≤ (items.length : Int) ∧ 0 ≤ index
    · obtain ⟨hc1, hc2⟩ := hc
      rcases h with h | h
      · exfalso; omega
      · have hnone : items.get? index.toNat = none := by
          rw [List.get?_eq_none]
          omega
        rw [if_pos ⟨hc1, hc2⟩, hnone]
    · rw [if_neg hc]
  · intro it h0 hlt hget
    have hc : index ≤ (items.length : Int) ∧ 0 ≤ index := ⟨le_of_lt hlt, h0⟩
    constructor
    · intro hk
      unfold trigger
      rw [if_pos hc, hget]
      simp [hk]
    · intro hk
      unfold trigger
      rw [if_pos hc, hget]
      simp [hk, itemContext]

/-- Witness for C6 on a one-item menu with context `7`: the
out-of-range index `-1` is a no-op, and index `0` runs the action with
the menu's context. -/
theorem c6_trigger_witness :
    (((-1 : Int) < 0 ∨ ((buildViewItems true [c6DemoAction]).length : Int) ≤ -1) ∧
      trigger (buildViewItems true [c6DemoAction]) (some 7) (-1) = TriggerEffect.noop) ∧
    ((0 : Int) ≤ 0 ∧ (0 : Int) < ((buildViewItems true [c6DemoAction]).length : Int) ∧
      (buildViewItems true [c6DemoAction]).get? (0 : Int).toNat =
        some (doGetActionViewItem true c6DemoAction) ∧
      (doGetActionViewItem true c6DemoAction).kind = ActionKind.leaf ∧
      trigger (buildViewItems true [c6DemoAction]) (some 7) 0 =
        TriggerEffect.runAction 5 (some 7)) :=
  ⟨⟨Or.inl (by decide),
    (c6_trigger (buildViewItems true [c6DemoAction]) (some 7) (-1)).1
      (Or.inl (by decide))⟩,
   by decide, by decide, by decide, by decide,
   ((c6_trigger (buildViewItems true [c6DemoAction]) (some 7) 0).2
       (doGetActionViewItem true c6DemoAction) (by decide) (by decide)
       (by decide)).2 (by decide)⟩

theorem nextScan_spec (items : List ViewItemM) :
    ∀ fuel pos, pos + fuel = items.length →
      ((nextFocusableFrom items fuel pos = none →
          ∀ k it2, pos ≤ k → items.get? k = some it2 → isFocusable it2 = false) ∧
       ∀ j, nextFocusableFrom items fuel pos = some j →
          pos ≤ j ∧ (∃ it, items.get? j = some it ∧ isFocusable it = true) ∧
          ∀ k it2, pos ≤ k → k < j → items.get? k = some it2 → isFocusable it2 = false) := by
  intro fuel
  induction fuel with
  | zero =>
    intro pos hlen
    constructor
    · intro _ k it2 hk hget
      rw [List.get?_eq_none.2 (by omega)] at hget
      exact Option.noConfusion hget
    · intro j hj
      exact absurd hj (by simp [nextFocusableFrom])
  | succ fuel ih =>
    intro pos hlen
    obtain ⟨it0, hg0⟩ : ∃ it0, items.get? pos = some it0 := by
      cases hg : items.get? pos with
      | none => rw [List.get?_eq_none] at hg; omega
      | some x => exact ⟨x, rfl⟩
    have hres : nextFocusableFrom items (fuel + 1) pos
        = if isFocusable it0 = true then some pos
          else nextFocusableFrom items fuel ((pos + 1) % items.length) := by
      rw [nextFocusableFrom, hg0]
    by_cases hf : isFocusable it0 = true
    · rw [if_pos hf] at hres
      constructor
      · intro hnone
        rw [hres] at hnone
        exact Option.noConfusion hnone
      · intro j hj
        rw [hres] at hj
        injection hj with hj
        subst hj
        exact ⟨le_refl pos, ⟨it0, hg0, hf⟩,
          fun k it2 hk1 hk2 _ => absurd hk2 (Nat.not_lt.2 hk1)⟩
    · have hf' : isFocusable it0 = false := by
        cases h : isFocusable it0
        · rfl
        · exact absurd h hf
      rw [if_neg hf] at hres
      by_cases hend : pos + 1 = items.length
      · have hfuel : fuel = 0 := by omega
        subst hfuel
        rw [show nextFocusableFrom items 0 ((pos + 1) % items.length) = none from rfl]
          at hres
        constructor
        · intro _ k it2 hk hget
          rcases Nat.eq_or_lt_of_le hk with he | hl
          · subst he
            rw [hg0] at hget
            injection hget with hi
            subst hi
            exact hf'
          · rw [List.get?_eq_none.2 (by omega)] at hget
            exact Option.noConfusion hget
        · intro j hj
          rw [hres] at hj
          exact Option.noConfusion hj
      · have hmod : (pos + 1) % items.length = pos + 1 := Nat.mod_eq_of_lt (by omega)
        rw [hmod] at hres
        have hrec := ih (pos + 1) (by omega)
        constructor
        · intro hnone k it2 hk hget
          rw [hres] at hnone
          rcases Nat.eq_or_lt_of_le hk with he | hl
          · subst he
            rw [hg0] at hget
            injection hget with hi
            subst hi
            exact hf'
          · exact hrec.1 hnone k it2 (by omega) hget
        · intro j hj
          rw [hres] at hj
          obtain ⟨hle, hex, hmin⟩ := hrec.2 j hj
          refine ⟨by omega, hex, ?_⟩
          intro k it2 hk1 hk2 hget
          rcases Nat.eq_or_lt_of_le hk1 with he | hl
          · subst he
            rw [hg0] at hget
            injection hget with hi
            subst hi
            exact hf'
          · exact hmin k it2 (by omega) hk2 hget

theorem prevScan_spec (items : List ViewItemM) :
    ∀ fuel pos, fuel = pos + 1 → pos < items.length →
      ((prevFocusableFrom items fuel pos = none →
          ∀ k it2, k ≤ pos → items.get? k = some it2 → isFocusable it2 = false) ∧
       ∀ j, prevFocusableFrom items fuel pos = some j →
          j ≤ pos ∧ (∃ it, items.get? j = some it ∧ isFocusable it = true) ∧
          ∀ k it2, j < k → k ≤ pos → items.get? k = some it2 → isFocusable it2 = false) := by
  intro fuel
  induction fuel with
  | zero =>
    intro pos hfuel
    exact absurd hfuel (by omega)
  | succ fuel ih =>
    intro pos hfuel hpos
    obtain ⟨it0, hg0⟩ : ∃ it0, items.get? pos = some it0 := by
      cases hg : items.get? pos with
      | none => rw [List.get?_eq_none] at hg; omega
      | some x => exact ⟨x, rfl⟩
    have hres : prevFocusableFrom items (fuel + 1) pos
        = if isFocusable it0 = true then some pos
          else prevFocusableFrom items fuel
            (if pos = 0 then items.length - 1 else pos - 1) := by
      rw [prevFocusableFrom, hg0]
    by_cases hf : isFocusable it0 = true
    · rw [if_pos hf] at hres
      constructor
      · intro hnone
        rw [hres] at hnone
        exact Option.noConfusion hnone
      · intro j hj
        rw [hres] at hj
        injection hj with hj
        subst hj
        exact ⟨le_refl pos, ⟨it0, hg0, hf⟩,
          fun k it2 hk1 hk2 _ => absurd hk1 (Nat.not_lt.2 hk2)⟩
    · have hf' : isFocusable it0 = false := by
        cases h : isFocusable it0
        · rfl
        · exact absurd h hf
      rw [if_neg hf] at hres
      by_cases h0 : pos = 0
      · have hfuel0 : fuel = 0 := by omega
        subst hfuel0
        rw [show prevFocusableFrom items 0
              (if pos = 0 then items.length - 1 else pos - 1) = none from rfl] at hres
        constructor
        · intro _ k it2 hk hget
          have hk0 : k = pos := by omega
          subst hk0
          rw [hg0] at hget
          injection hget with hi
          subst hi
          exact hf'
        · intro j hj
          rw [hres] at hj
          exact Option.noConfusion hj
      · rw [if_neg h0] at hres
        have hrec := ih (pos - 1) (by omega) (by omega)
        constructor
        · intro hnone k it2 hk hget
          rw [hres] at hnone
          rcases Nat.eq_or_lt_of_le hk with he | hl
          · have hk0 : k = pos := by omega
            subst hk0
            rw [hg0] at hget
            injection hget with hi
            subst hi
            exact hf'
          · exact hrec.1 hnone k it2 (by omega) hget
        · intro j hj
          rw [hres] at hj
          obtain ⟨hle, hex, hmax⟩ := hrec.2 j hj
          refine ⟨by omega, hex, ?_⟩
          intro k it2 hk1 hk2 hget
          rcases Nat.eq_or_lt_of_le hk2 with he | hl
          · have hk0 : k = pos := by omega
            subst hk0
            rw [hg0] at hget
            injection hget with hi
            subst hi
            exact hf'
          · exact hmax k it2 hk1 (by omega) hget

/-- C7: on Linux, a Home/PageUp key-down sets the focused index to the
last item and calls `focusNext`, which by wrap-around lands on the
first focusable item; End/PageDown sets it to 0 and calls
`focusPrevious`, which by wrap-around lands on the last focusable
item. -/
theorem c7_linux_home_end (items : List ViewItemM)
    (hex : ∃ it ∈ items, isFocusable it = true) :
    (∃ j it, linuxHomeKey items = some j ∧ items.get? j = some it ∧
       isFocusable it = true ∧
       ∀ k it2, k < j → items.get? k = some it2 → isFocusable it2 = false) ∧
    (∃ j it, linuxEndKey items = some j ∧ items.get? j = some it ∧
       isFocusable it = true ∧
       ∀ k it2, j < k → items.get? k = some it2 → isFocusable it2 = false) := by
  obtain ⟨itw, hmem, hfw⟩ := hex
  obtain ⟨kw, hkw⟩ := List.get?_of_mem hmem
  have hkwlt : kw < items.length := by
    by_contra hge
    rw [List.get?_eq_none.2 (by omega)] at hkw
    exact Option.noConfusion hkw
  have hlen : ¬items.length = 0 := by omega
  constructor
  · have hkey : linuxHomeKey items = nextFocusableFrom items items.length 0 := by
      unfold linuxHomeKey focusNext
      rw [if_neg hlen]
      simp only [Option.getD_some]
      rw [Nat.sub_add_cancel (by omega), Nat.mod_self]
    have hspec := nextScan_spec items items.length 0 (by omega)
    cases hres : nextFocusableFrom items items.length 0 with
    | none =>
      have hcontra := hspec.1 hres kw itw (Nat.zero_le _) hkw
      rw [hfw] at hcontra
      exact Bool.noConfusion hcontra
    | some j =>
      obtain ⟨_, ⟨it, hit, hfit⟩, hmin⟩ := hspec.2 j hres
      exact ⟨j, it, by rw [hkey, hres], hit, hfit,
        fun k it2 hk hget => hmin k it2 (Nat.zero_le _) hk hget⟩
  · have hkey : linuxEndKey items
        = prevFocusableFrom items items.length (items.length - 1) := by
      unfold linuxEndKey focusPrevious
      rw [if_neg hlen]
      rfl
    have hspec := prevScan_spec items items.length (items.length - 1)
      (by omega) (by omega)
    cases hres : prevFocusableFrom items items.length (items.length - 1) with
    | none =>
      have hcontra := hspec.1 hres kw itw (by omega) hkw
      rw [hfw] at hcontra
      exact Bool.noConfusion hcontra
    | some j =>
      obtain ⟨_, ⟨it, hit, hfit⟩, hmax⟩ := hspec.2 j hres
      refine ⟨j, it, by rw [hkey, hres], hit, hfit, ?_⟩
      intro k it2 hjk hget
      have hk : k < items.length := by
        by_contra hge
        rw [List.get?_eq_none.2 (by omega)] at hget
        exact Option.noConfusion hget
      exact hmax k it2 hjk (by omega) hget

/-- Witness for C7 on a menu with separators, a disabled item, and
focusable items at indices 2 and 4. -/
theorem c7_linux_home_end_witness :
    (∃ it ∈ c7Items, isFocusable it = true) ∧
    ((∃ j it, linuxHomeKey c7Items = some j ∧ c7Items.get? j = some it ∧
        isFocusable it = true ∧
        ∀ k it2, k < j → c7Items.get? k = some it2 → isFocusable it2 = false) ∧
     (∃ j it, linuxEndKey c7Items = some j ∧ c7Items.get? j = some it ∧
        isFocusable it = true ∧
        ∀ k it2, j < k → c7Items.get? k = some it2 → isFocusable it2 = false)) :=
  ⟨by decide, c7_linux_home_end c7Items (by decide)⟩

theorem foldl_preserve {α β : Type} (f : β → α → β) (Inv : β → Prop)
    (hf : ∀ m a, Inv m → Inv (f m a)) :
    ∀ (l : List α) (m0 : β), Inv m0 → Inv (l.foldl f m0) := by
  intro l
  induction l with
  | nil => intro m0 h; exact h
  | cons a rest ih => intro m0 h; exact ih _ (hf m0 a h)

theorem doGet_hasContainer (em : Bool) (a : ActionM) :
    (doGetActionViewItem em a).hasContainer = true := by
  unfold doGetActionViewItem
  cases a.kind <;> rfl

theorem registerMnemonic_mem (em : Bool) (m : MnemMap) (it0 : ViewItemM)
    (hP : ∀ k it, it ∈ m k → it.action.enabled = true ∧ it.hasContainer = true)
    (hc0 : it0.hasContainer = true) :
    ∀ k it, it ∈ registerMnemonic em m it0 k →
      it.action.enabled = true ∧ it.hasContainer = true := by
  intro k it hmem
  unfold registerMnemonic at hmem
  by_cases hem : em = true
  · rw [if_pos hem] at hmem
    cases hmn : it0.mnemonic with
    | none =>
      rw [hmn] at hmem
      exact hP k it hmem
    | some k0 =>
      rw [hmn] at hmem
      replace hmem :
          it ∈ (if it0.action.enabled = true then setMnem m k0 (m k0 ++ [it0]) else m) k :=
        hmem
      by_cases hen : it0.action.enabled = true
      · rw [if_pos hen] at hmem
        simp only [setMnem] at hmem
        by_cases hk : k = k0
        · rw [if_pos hk] at hmem
          rcases List.mem_append.1 hmem with h | h
          · exact hP k0 it h
          · rw [List.mem_singleton] at h
            subst h
            exact ⟨hen, hc0⟩
        · rw [if_neg hk] at hmem
          exact hP k it hmem
      · rw [if_neg hen] at hmem
        exact hP k it hmem
  · rw [if_neg hem] at hmem
    exact hP k it hmem

theorem buildMnemonics_mem (em : Bool) (acts : List ActionM) :
    ∀ k it, it ∈ buildMnemonics em acts k →
      it.action.enabled = true ∧ it.hasContainer = true := by
  unfold buildMnemonics
  refine foldl_preserve _
    (fun m => ∀ k it, it ∈ m k → it.action.enabled = true ∧ it.hasContainer = true)
    ?_ acts emptyMnemMap ?_
  · intro m a hm
    by_cases hsep : a.kind = ActionKind.separator
    · simpa [hsep] using hm
    · intro k it hmem
      simp only [hsep, if_false] at hmem
      exact registerMnemonic_mem em m _ hm (doGet_hasContainer em a) k it hmem
  · intro k it h
    simp [emptyMnemMap] at h

theorem dispatchMnemonic_multi (m : MnemMap) (key : Char) (hkey : jsToLower key = key)
    (a b : ViewItemM) (rest : List ViewItemM) (hm : m key = a :: b :: rest)
    (hc : a.hasContainer = true) :
    dispatchMnemonic m key =
      ⟨setMnem m key ((b :: rest) ++ [a]), some a, none⟩ := by
  simp only [dispatchMnemonic, hkey, hm, hc, if_true]

theorem focusSeq_formula (key : Char) (hkey : jsToLower key = key) :
    ∀ (n : Nat) (m : MnemMap) (l : List ViewItemM), m key = l → 2 ≤ l.length →
      (∀ it ∈ l, it.hasContainer = true) →
      focusSeq m key n = (List.range n).map (fun i => l.get? (i % l.length)) := by
  intro n
  induction n with
  | zero => intro m l hm hlen hc; simp [focusSeq]
  | succ n ih =>
    intro m l hm hlen hc
    cases l with
    | nil => simp at hlen
    | cons x l1 =>
      cases l1 with
      | nil => simp at hlen
      | cons y rest =>
        have hd := dispatchMnemonic_multi m key hkey x y rest hm
          (hc x (by simp))
        have hrot : (x :: y :: rest).rotate 1 = (y :: rest) ++ [x] := by
          rw [List.rotate_cons_succ, List.rotate_zero]
        have hlen2 : ((y :: rest) ++ [x]).length = (x :: y :: rest).length := by
          simp
        have hcont : ∀ z ∈ (y :: rest) ++ [x], z.hasContainer = true := by
          intro z hz
          rcases List.mem_append.1 hz with h | h
          · exact hc z (List.mem_cons_of_mem _ h)
          · rw [List.mem_singleton] at h
            subst h
            exact hc _ (by simp)
        have hih := ih (setMnem m key ((y :: rest) ++ [x])) ((y :: rest) ++ [x])
          (by simp [setMnem])
          (by rw [hlen2]; exact hlen)
          hcont
        have hstep : focusSeq m key (n + 1) =
            some x :: focusSeq (setMnem m key ((y :: rest) ++ [x])) key n := by
          rw [focusSeq, hd]
        rw [hstep, hih]
        have hfun : (fun i => ((y :: rest) ++ [x]).get? (i % ((y :: rest) ++ [x]).length))
            = fun i => (x :: y :: rest).get? ((i + 1) % (x :: y :: rest).length) := by
          funext i
          rw [hlen2, ← hrot]
          have hmodlt : i % (x :: y :: rest).length < (x :: y :: rest).length :=
            Nat.mod_lt _ (by simp)
          rw [List.get?_rotate hmodlt]
          congr 1
          conv_rhs => rw [Nat.add_mod]
          rw [Nat.mod_eq_of_lt
            (show 1 < (x :: y :: rest).length by simp)]
        rw [hfun]
        rw [List.range_succ_eq_map, List.map_cons, List.map_map]
        rfl

/-- C3: for a mnemonic key registered with more than one item, each
dispatch removes the first item of the entry, focuses it, and appends
it to the back, so `n` successive dispatches focus the items
cyclically in registration order; and the entry never contains an item
that was disabled at registration. -/
theorem c3_mnemonic_cycling (acts : List ActionM) (key : Char) (n : Nat)
    (hkey : jsToLower key = key)
    (hlen : 2 ≤ (buildMnemonics true acts key).length) :
    focusSeq (buildMnemonics true acts) key n =
      (List.range n).map (fun i =>
        (buildMnemonics true acts key).get?
          (i % (buildMnemonics true acts key).length)) ∧
    ∀ it ∈ buildMnemonics true acts key, it.action.enabled = true := by
  constructor
  · exact focusSeq_formula key hkey n _ _ rfl hlen
      (fun it hit => (buildMnemonics_mem true acts key it hit).2)
  · exact fun it hit => (buildMnemonics_mem true acts key it hit).1

/-- Witness for C3: three enabled leaf items all registered under the
mnemonic `a`, dispatched four times. -/
theorem c3_mnemonic_cycling_witness :
    jsToLower 'a' = 'a' ∧ 2 ≤ (buildMnemonics true c3Acts 'a').length ∧
    (focusSeq (buildMnemonics true c3Acts) 'a' 4 =
      (List.range 4).map (fun i =>
        (buildMnemonics true c3Acts 'a').get?
          (i % (buildMnemonics true c3Acts 'a').length)) ∧
     ∀ it ∈ buildMnemonics true c3Acts 'a', it.action.enabled = true) :=
  ⟨by decide, by decide, c3_mnemonic_cycling c3Acts 'a' 4 (by decide) (by decide)⟩

end Menu
